import Mathlib

/-!
Verification of the prior-box generation layer
(`paddle/gserver/layers/PriorBox.cpp`).

The C++ layer is embedded shallowly:

* numeric values computed in `float`/`double` are modelled as exact
  rationals (`ℚ`); the C library square root is an explicit parameter
  `sq : ℚ → ℚ` threaded through every definition that calls it;
* the configured sizes are C `int`s and are modelled as `ℤ`; the C++
  conversion of a floating-point value to `int` (which truncates toward
  zero) is modelled by `cTrunc`;
* the scratch buffer `buffer_` is a total map `ℕ → ℚ`; the sequential
  stores of `forward` become explicit buffer-transformation stages
  (`coordStage`, `clipStage`, `finalBuf`), and the final
  `copyFrom(buffer_->data_, dim * 2)` is `outputOf`;
* the single runtime check `CHECK_EQ(minSize_.size(), maxSize_.size())`
  aborts the call; `forward` therefore returns an `Except`.  The check
  sits inside the cell/size loops, so it can only fire when those loops
  actually run.
-/

namespace PriorBox

/-- Clipping of one coordinate, `std::min(std::max(v, 0), 1)`
(PriorBox.cpp line 132). -/
def clip01 (x : ℚ) : ℚ := min (max x 0) 1

/-- C++ conversion of a floating value to `int`: truncation toward zero. -/
def cTrunc (q : ℚ) : ℤ := if 0 ≤ q then ⌊q⌋ else ⌈q⌉

/-- The four stored values for one prior box with center `(cx, cy)`,
box width `bw`, box height `bh`, image size `iw × ih`
(the `xmin, ymin, xmax, ymax` stores, PriorBox.cpp lines 99-102). -/
def quad (cx cy bw bh iw ih : ℚ) : List ℚ :=
  [(cx - bw / 2) / iw, (cy - bh / 2) / ih, (cx + bw / 2) / iw, (cy + bh / 2) / ih]

/-- The configuration ingested by `PriorBoxLayer::init`:
`minSize_ : vector<int>`, `maxSize_ : vector<int>`,
the raw `aspect_ratio` list and the `variance` list (both `float`). -/
structure Config where
  minSize : List ℤ
  maxSize : List ℤ
  aspectRatioIn : List ℚ
  variance : List ℚ

/-- The flip loop of `PriorBoxLayer::init` (lines 60-64): starting from the
raw ratio list, for each `index` below the ORIGINAL length push
`1 / aspectRatio_[index]`, then push the trailing `1.0`. -/
def flipRatios (raw : List ℚ) : List ℚ :=
  (List.range raw.length).foldl (fun acc index => acc ++ [1 / acc.getD index 0]) raw ++ [1]

/-- `numPriors_` as computed by `init` (lines 65-66): the flipped ratio
count, plus one when `maxSize_` is non-empty.  This is the NOMINAL
per-cell prior count used to size the buffer. -/
def numPriors (cfg : Config) : ℕ :=
  (flipRatios cfg.aspectRatioIn).length + (if 0 < cfg.maxSize.length then 1 else 0)

/-- Number of derived ratios within `1e-6` of `1.0` (those the emission
loop of `forward` skips, line 120). -/
def unityCount (cfg : Config) : ℕ :=
  (flipRatios cfg.aspectRatioIn).countP (fun ar => decide (|ar - 1| < 1 / 1000000))

/-- The per-cell count of priors that `forward` actually emits:
`len(minSizes) * (1 + len(maxSizes)) + (len(derived) - unityCount)`. -/
def actualPriorsPerCell (cfg : Config) : ℕ :=
  cfg.minSize.length * (1 + cfg.maxSize.length) +
    ((flipRatios cfg.aspectRatioIn).length - unityCount cfg)

/-- The second-prior inner loop (lines 104-115): when `maxSize_` is
non-empty, for EVERY entry `M` emit a square box whose side is
`sqrt(minSize * maxSize)` truncated to `int` (the C++ target variables
`boxWidth`/`boxHeight` are `int`). -/
def maxBlock (sq : ℚ → ℚ) (maxS : List ℤ) (m : ℤ) (cx cy iw ih : ℚ) : List ℚ :=
  if 0 < maxS.length then
    maxS.flatMap (fun M =>
      quad cx cy ((cTrunc (sq ((m * M : ℤ) : ℚ))) : ℚ)
        ((cTrunc (sq ((m * M : ℤ) : ℚ))) : ℚ) iw ih)
  else []

/-- One iteration of the `minSize_` loop body (lines 93-116): the first
prior (a square of side `minSize_[s]`) followed by the second-prior
block. -/
def minBlock (sq : ℚ → ℚ) (maxS : List ℤ) (m : ℤ) (cx cy iw ih : ℚ) : List ℚ :=
  quad cx cy (m : ℚ) (m : ℚ) iw ih ++ maxBlock sq maxS m cx cy iw ih

/-- The whole `minSize_` loop for one cell.  The state is the pair of the
mutable `minSize` variable (initialised to `0` at line 92 and re-assigned
at each iteration, line 95) and the emitted values so far. -/
def sizeLoop (sq : ℚ → ℚ) (cfg : Config) (cx cy iw ih : ℚ) : ℤ × List ℚ :=
  cfg.minSize.foldl
    (fun acc m => (m, acc.2 ++ minBlock sq cfg.maxSize m cx cy iw ih)) (0, [])

/-- The aspect-ratio loop for one cell (lines 117-127): iterate the
derived ratios in order, skip a ratio within `1e-6` of `1`, and
otherwise emit a box of width `minSize * sqrt(ar)` and height
`minSize / sqrt(ar)` for the current value `m` of the `minSize`
variable. -/
def ratioBlock (sq : ℚ → ℚ) (ratios : List ℚ) (m : ℤ) (cx cy iw ih : ℚ) : List ℚ :=
  ratios.flatMap (fun ar =>
    if |ar - 1| < 1 / 1000000 then []
    else quad cx cy ((m : ℚ) * sq ar) ((m : ℚ) / sq ar) iw ih)

/-- Everything emitted for the cell at row `h`, column `w` (lines 90-127):
center at `((w + 0.5) * stepW, (h + 0.5) * stepH)`, the size-loop
emission, then the aspect-ratio emission with the `minSize` variable as
the size loop left it. -/
def cellCoords (sq : ℚ → ℚ) (cfg : Config) (iw ih stepW stepH : ℚ) (h w : ℕ) : List ℚ :=
  (sizeLoop sq cfg (((w : ℚ) + 1 / 2) * stepW) (((h : ℚ) + 1 / 2) * stepH) iw ih).2 ++
    ratioBlock sq (flipRatios cfg.aspectRatioIn)
      (sizeLoop sq cfg (((w : ℚ) + 1 / 2) * stepW) (((h : ℚ) + 1 / 2) * stepH) iw ih).1
      (((w : ℚ) + 1 / 2) * stepW) (((h : ℚ) + 1 / 2) * stepH) iw ih

/-- All coordinate values written by the nested `h`/`w` loops
(lines 88-129), with `stepW = imageWidth / layerWidth` and
`stepH = imageHeight / layerHeight` (lines 79-80). -/
def allCoords (sq : ℚ → ℚ) (cfg : Config) (lw lh iw ih : ℤ) : List ℚ :=
  (List.range lh.toNat).flatMap (fun h =>
    (List.range lw.toNat).flatMap (fun w =>
      cellCoords sq cfg (iw : ℚ) (ih : ℚ)
        ((iw : ℚ) / (lw : ℚ)) ((ih : ℚ) / (lh : ℚ)) h w))

/-- The variance values written by the final nested loops
(lines 134-137): for each cell and each of the `numPriors_` NOMINAL
slots, the four entries of `variance_`. -/
def varianceBlock (cfg : Config) (lw lh : ℤ) : List ℚ :=
  (List.range lh.toNat).flatMap (fun _ =>
    (List.range lw.toNat).flatMap (fun _ =>
      (List.range (numPriors cfg)).flatMap (fun _ =>
        (List.range 4).map (fun j => cfg.variance.getD j 0))))

/-- `dim = layerHeight * layerWidth * numPriors_ * 4` (line 81). -/
def dim (cfg : Config) (lw lh : ℤ) : ℤ := lh * lw * (numPriors cfg : ℤ) * 4

/-- Sequential stores of the list `xs` into the buffer starting at
position `start`. -/
def writeSeq (b : ℕ → ℚ) (start : ℕ) (xs : List ℚ) : ℕ → ℚ :=
  fun i => if start ≤ i ∧ i < start + xs.length then xs.getD (i - start) 0 else b i

/-- Buffer state after the coordinate stores (`idx` starts at 0). -/
def coordStage (sq : ℚ → ℚ) (cfg : Config) (lw lh iw ih : ℤ) (b : ℕ → ℚ) : ℕ → ℚ :=
  writeSeq b 0 (allCoords sq cfg lw lh iw ih)

/-- Buffer state after the clipping pass (lines 131-132), which rewrites
positions `0 ≤ d < dim` with `min(max(v, 0), 1)`. -/
def clipStage (sq : ℚ → ℚ) (cfg : Config) (lw lh iw ih : ℤ) (b : ℕ → ℚ) : ℕ → ℚ :=
  fun i =>
    if i < (dim cfg lw lh).toNat
    then clip01 (coordStage sq cfg lw lh iw ih b i)
    else coordStage sq cfg lw lh iw ih b i

/-- Buffer state after the variance stores, which continue at the value
`idx` reached by the coordinate stores (line 137). -/
def finalBuf (sq : ℚ → ℚ) (cfg : Config) (lw lh iw ih : ℤ) (b : ℕ → ℚ) : ℕ → ℚ :=
  writeSeq (clipStage sq cfg lw lh iw ih b)
    (allCoords sq cfg lw lh iw ih).length (varianceBlock cfg lw lh)

/-- The output copied to the layer output: the first `dim * 2` buffer
entries (line 139). -/
def outputOf (sq : ℚ → ℚ) (cfg : Config) (lw lh iw ih : ℤ) (b : ℕ → ℚ) : List ℚ :=
  (List.range (dim cfg lw lh * 2).toNat).map (finalBuf sq cfg lw lh iw ih b)

/-- The only failure of `forward`: the `CHECK_EQ` at line 105. -/
inductive GenError where
  | checkFailed
deriving DecidableEq

/-- `PriorBoxLayer::forward`.  The `CHECK_EQ(minSize_.size(), maxSize_.size())`
sits inside the `h`/`w`/`s` loops behind `if (maxSize_.size() > 0)`, so it
aborts the call exactly when both grid dimensions are positive, `minSize_`
is non-empty, `maxSize_` is non-empty, and the two lengths differ;
otherwise the call completes and copies out the first `dim * 2` buffer
entries. -/
def forward (sq : ℚ → ℚ) (cfg : Config) (lw lh iw ih : ℤ) (b : ℕ → ℚ) :
    Except GenError (List ℚ) :=
  if 0 < lh ∧ 0 < lw ∧ cfg.minSize ≠ [] ∧ cfg.maxSize ≠ [] ∧
      cfg.minSize.length ≠ cfg.maxSize.length
  then Except.error GenError.checkFailed
  else Except.ok (outputOf sq cfg lw lh iw ih b)

/-! ### Definitions transcribed from the specification text

These follow the wording of the spec (§4.2), to be compared with the
embedding above. -/

/-- Spec §4.2 step 2 as written: for each `s`, one square prior of side
`minSizes[s]`, then (when `maxSizes` is non-empty) for every `M` one
square prior of side `sqrt(m * M)` — with NO integer truncation. -/
def specSizePriors (sq : ℚ → ℚ) (minS maxS : List ℤ) (cx cy iw ih : ℚ) : List ℚ :=
  minS.flatMap (fun m =>
    quad cx cy (m : ℚ) (m : ℚ) iw ih ++
      (if maxS ≠ [] then
        maxS.flatMap (fun M =>
          quad cx cy (sq ((m * M : ℤ) : ℚ)) (sq ((m * M : ℤ) : ℚ)) iw ih)
      else []))

/-- Spec §4.2 step 2, amended to match the code: the side of the second
prior is the square root truncated to `int`. -/
def specSizePriorsTrunc (sq : ℚ → ℚ) (minS maxS : List ℤ) (cx cy iw ih : ℚ) : List ℚ :=
  minS.flatMap (fun m =>
    quad cx cy (m : ℚ) (m : ℚ) iw ih ++
      (if maxS ≠ [] then
        maxS.flatMap (fun M =>
          quad cx cy ((cTrunc (sq ((m * M : ℤ) : ℚ))) : ℚ)
            ((cTrunc (sq ((m * M : ℤ) : ℚ))) : ℚ) iw ih)
      else []))

/-- Spec §4.2 step 3 as written: iterate the derived ratios in order,
skip a ratio within `1e-6` of `1`, otherwise emit one prior of width
`m * sqrt(ar)` and height `m / sqrt(ar)`, centered and normalized the
same way. -/
def specAspectPriors (sq : ℚ → ℚ) (ratios : List ℚ) (m : ℤ) (cx cy iw ih : ℚ) : List ℚ :=
  ratios.flatMap (fun ar =>
    if |ar - 1| < 1 / 1000000 then []
    else [(cx - (m : ℚ) * sq ar / 2) / iw, (cy - (m : ℚ) / sq ar / 2) / ih,
          (cx + (m : ℚ) * sq ar / 2) / iw, (cy + (m : ℚ) / sq ar / 2) / ih])

/-! ### Concrete instances used by witnesses and counterexamples -/

/-- Trivial square-root stand-in (never interrogated by the statements
that use it on relevant arguments). -/
def sq0 : ℚ → ℚ := fun _ => 0

/-- A square-root function with `sq 1800 = 42.424`, a non-integer value,
as any faithful square root of `1800 = 30 * 60` must produce (the true
root is irrational). -/
def sqX : ℚ → ℚ := fun q => if q = 1800 then 5303 / 125 else 0

/-- All-zero initial scratch buffer. -/
def scr0 : ℕ → ℚ := fun _ => 0

/-- Scenario A of the spec: one min size, no max size, one raw ratio. -/
def cfgA : Config := ⟨[30], [], [2], [1/10, 1/10, 1/5, 1/5]⟩

/-- Two min sizes, no max sizes, no raw ratios. -/
def cfgTwoMin : Config := ⟨[30, 40], [], [], [1/10, 1/10, 1/5, 1/5]⟩

/-- Scenario B of the spec: one min size, one max size, no raw ratios. -/
def cfgMinMax : Config := ⟨[30], [60], [], [1/10, 1/10, 1/5, 1/5]⟩

/-- Empty `minSize_` with a non-empty `maxSize_` (mismatched lengths). -/
def cfgNoMin : Config := ⟨[], [60], [2], [1/10, 1/10, 1/5, 1/5]⟩

/-! ### Basic lemmas about the embedding -/

lemma clip01_nonneg (x : ℚ) : 0 ≤ clip01 x :=
  le_min (le_max_right x 0) zero_le_one

lemma clip01_le_one (x : ℚ) : clip01 x ≤ 1 :=
  min_le_right _ _

lemma clip01_idem (x : ℚ) : clip01 (clip01 x) = clip01 x := by
  have h1 : max (clip01 x) 0 = clip01 x := max_eq_left (clip01_nonneg x)
  show min (max (clip01 x) 0) 1 = clip01 x
  rw [h1]
  exact min_eq_left (clip01_le_one x)

/-- The size loop, unfolded: it returns the last element of `minSize_`
(the start value if the list is empty) and the concatenation of the
per-element blocks in order. -/
lemma foldl_minBlock (sq : ℚ → ℚ) (maxS : List ℤ) (cx cy iw ih : ℚ) :
    ∀ (l : List ℤ) (a : ℤ) (out : List ℚ),
      l.foldl (fun acc m => (m, acc.2 ++ minBlock sq maxS m cx cy iw ih)) (a, out)
        = (l.getLastD a, out ++ l.flatMap (fun m => minBlock sq maxS m cx cy iw ih)) := by
  intro l
  induction l with
  | nil => intro a out; simp
  | cons s rest ih2 =>
    intro a out
    simp only [List.foldl_cons, ih2, List.flatMap_cons, List.getLastD_cons,
      List.append_assoc]

lemma sizeLoop_eq (sq : ℚ → ℚ) (cfg : Config) (cx cy iw ih : ℚ) :
    sizeLoop sq cfg cx cy iw ih
      = (cfg.minSize.getLastD 0,
         cfg.minSize.flatMap (fun m => minBlock sq cfg.maxSize m cx cy iw ih)) := by
  unfold sizeLoop
  rw [foldl_minBlock]
  simp

/-- The flip loop of `init`, unfolded up to position `n`: the original
list followed by the reciprocals of its first `n` entries. -/
lemma flipRatios_foldl (raw : List ℚ) :
    ∀ n, n ≤ raw.length →
      (List.range n).foldl (fun acc index => acc ++ [1 / acc.getD index 0]) raw
        = raw ++ (raw.take n).map (fun r => 1 / r) := by
  intro n
  induction n with
  | zero => intro _; simp
  | succ k ih2 =>
    intro hk
    have hklt : k < raw.length := Nat.lt_of_succ_le hk
    rw [List.range_succ, List.foldl_append, ih2 (Nat.le_of_lt hklt)]
    have hget : (raw ++ (raw.take k).map (fun r => 1 / r)).getD k 0 = raw.getD k 0 := by
      rw [List.getD_append]
      exact hklt
    have htake : raw.take (k + 1) = raw.take k ++ [raw.getD k 0] := by
      rw [List.getD_eq_getElem raw 0 hklt, List.take_succ, List.getElem?_eq_getElem hklt]
      rfl
    simp only [List.foldl_cons, List.foldl_nil, hget, htake, List.map_append,
      List.map_cons, List.map_nil, List.append_assoc]

/-- Structure of the derived ratio list: the raw ratios, then their
reciprocals in the same order, then a single trailing `1.0`. -/
lemma flipRatios_eq (raw : List ℚ) :
    flipRatios raw = raw ++ raw.map (fun r => 1 / r) ++ [1] := by
  unfold flipRatios
  rw [flipRatios_foldl raw raw.length (le_refl _)]
  simp

lemma flipRatios_length (raw : List ℚ) :
    (flipRatios raw).length = 2 * raw.length + 1 := by
  rw [flipRatios_eq]
  simp
  ring

/-! ### Length lemmas -/

lemma length_flatMap_const {α β : Type} (l : List α) (f : α → List β) (k : ℕ)
    (hf : ∀ a ∈ l, (f a).length = k) :
    (l.flatMap f).length = l.length * k := by
  induction l with
  | nil => simp
  | cons a t ih2 =>
    simp only [List.flatMap_cons, List.length_append, List.length_cons]
    rw [hf a (List.mem_cons_self a t), ih2 (fun x hx => hf x (List.mem_cons_of_mem a hx))]
    ring

lemma length_maxBlock (sq : ℚ → ℚ) (maxS : List ℤ) (m : ℤ) (cx cy iw ih : ℚ) :
    (maxBlock sq maxS m cx cy iw ih).length = maxS.length * 4 := by
  unfold maxBlock
  split_ifs with hmx
  · exact length_flatMap_const _ _ 4 (fun a _ => by simp [quad])
  · simp only [List.length_nil]
    omega

lemma length_minBlock (sq : ℚ → ℚ) (maxS : List ℤ) (m : ℤ) (cx cy iw ih : ℚ) :
    (minBlock sq maxS m cx cy iw ih).length = 4 * (1 + maxS.length) := by
  unfold minBlock
  rw [List.length_append, length_maxBlock]
  simp [quad]
  ring

lemma length_sizeLoop (sq : ℚ → ℚ) (cfg : Config) (cx cy iw ih : ℚ) :
    ((sizeLoop sq cfg cx cy iw ih).2).length
      = cfg.minSize.length * (4 * (1 + cfg.maxSize.length)) := by
  rw [sizeLoop_eq]
  exact length_flatMap_const _ _ _ (fun a _ => length_minBlock sq cfg.maxSize a cx cy iw ih)

lemma length_ratioBlock (sq : ℚ → ℚ) (ratios : List ℚ) (m : ℤ) (cx cy iw ih : ℚ) :
    (ratioBlock sq ratios m cx cy iw ih).length
      = 4 * (ratios.length - ratios.countP (fun ar => decide (|ar - 1| < 1 / 1000000))) := by
  unfold ratioBlock
  induction ratios with
  | nil => simp
  | cons a t ih2 =>
    have hcle := List.countP_le_length (fun ar => decide (|ar - 1| < 1 / 1000000)) (l := t)
    simp only [List.flatMap_cons, List.length_append, List.countP_cons, List.length_cons, ih2]
    by_cases hp : |a - 1| < 1 / 1000000
    · have hd : decide (|a - 1| < 1 / 1000000) = true := decide_eq_true hp
      rw [if_pos hp, if_pos hd]
      simp only [List.length_nil]
      omega
    · have hd : ¬(decide (|a - 1| < 1 / 1000000) = true) := by
        simp only [decide_eq_true_eq]
        exact hp
      rw [if_neg hp, if_neg hd]
      simp only [quad, List.length_cons, List.length_nil]
      omega

lemma length_cellCoords (sq : ℚ → ℚ) (cfg : Config) (iw ih sW sH : ℚ) (h w : ℕ) :
    (cellCoords sq cfg iw ih sW sH h w).length = actualPriorsPerCell cfg * 4 := by
  unfold cellCoords
  simp only [List.length_append, length_sizeLoop, length_ratioBlock]
  unfold actualPriorsPerCell unityCount
  ring

lemma length_allCoords (sq : ℚ → ℚ) (cfg : Config) (lw lh iw ih : ℤ) :
    (allCoords sq cfg lw lh iw ih).length
      = lh.toNat * lw.toNat * actualPriorsPerCell cfg * 4 := by
  unfold allCoords
  rw [length_flatMap_const _ _ (lw.toNat * (actualPriorsPerCell cfg * 4))
    (fun hIdx _ => by
      rw [length_flatMap_const _ _ (actualPriorsPerCell cfg * 4)
        (fun wIdx _ => length_cellCoords sq cfg _ _ _ _ hIdx wIdx)]
      simp)]
  simp
  ring

/-! ### Claim C8 -/

/-- C8: `configure` builds the derived aspect-ratio list as the raw
ratios followed by the reciprocal of each entry in the same order,
followed by a single trailing `1.0`; its length is
`2 * len(rawAspectRatios) + 1`; `r` and `1/r` both occur for every input
`r`; and the derivation appends exactly one trailing `1.0` (the segment
past the first `2 * len` entries is exactly `[1.0]`). -/
theorem c8_derivedRatios (raw : List ℚ) :
    flipRatios raw = raw ++ raw.map (fun r => 1 / r) ++ [1] ∧
    (flipRatios raw).length = 2 * raw.length + 1 ∧
    (∀ r, r ∈ raw → r ∈ flipRatios raw ∧ 1 / r ∈ flipRatios raw) ∧
    (flipRatios raw).drop (2 * raw.length) = [1] := by
  refine ⟨flipRatios_eq raw, flipRatios_length raw, ?_, ?_⟩
  · intro r hr
    rw [flipRatios_eq]
    constructor
    · exact List.mem_append_left _ (List.mem_append_left _ hr)
    · exact List.mem_append_left _ (List.mem_append_right _ (List.mem_map_of_mem _ hr))
  · rw [flipRatios_eq]
    have hlen : (raw ++ raw.map (fun r => 1 / r)).length = 2 * raw.length := by
      simp
      ring
    rw [← hlen, List.drop_left]

/-- Witness for C8 at `raw = [2]`. -/
theorem c8_derivedRatios_witness :
    ((2 : ℚ) ∈ [(2 : ℚ)]) ∧ ((2 : ℚ) ∈ flipRatios [2] ∧ 1 / (2 : ℚ) ∈ flipRatios [2]) :=
  ⟨by decide, (c8_derivedRatios [2]).2.2.1 2 (by decide)⟩

/-! ### Claim C7 -/

/-- C7 amended: `forward` raises the fatal configuration-integrity error
if and only if both grid dimensions are positive, `minSize_` is
non-empty, `maxSize_` is non-empty and the two lengths differ — the
`CHECK_EQ` sits inside the generation loops, so an empty `minSize_` or an
empty grid suppresses it.  The check belongs to generation; `init`
performs no such check (it is a total function on any two size lists). -/
theorem c7_checkCondition (sq : ℚ → ℚ) (cfg : Config) (lw lh iw ih : ℤ) (b : ℕ → ℚ) :
    forward sq cfg lw lh iw ih b = Except.error GenError.checkFailed
      ↔ (0 < lh ∧ 0 < lw ∧ cfg.minSize ≠ [] ∧ cfg.maxSize ≠ [] ∧
          cfg.minSize.length ≠ cfg.maxSize.length) := by
  unfold forward
  split_ifs with hc
  · simp [hc]
  · simp [hc]

/-- C7 counterexample: `minSize_ = []`, `maxSize_ = [60]` — the lengths
differ and `maxSize_` is non-empty, yet `forward` completes without any
error, because the size loop never runs. -/
theorem c7_counterexample :
    cfgNoMin.maxSize ≠ [] ∧ cfgNoMin.minSize.length ≠ cfgNoMin.maxSize.length ∧
    (forward sq0 cfgNoMin 1 1 300 300 scr0).isOk = true :=
  ⟨by decide, by decide, by decide⟩

/-! ### Claim C6 -/

/-- C6 amended: `forward` performs no dimension check at all; whenever a
grid dimension is non-positive it completes without error (for any image
dimensions, non-positive ones included). -/
theorem c6_noDimensionCheck (sq : ℚ → ℚ) (cfg : Config) (lw lh iw ih : ℤ) (b : ℕ → ℚ)
    (hdims : lh ≤ 0 ∨ lw ≤ 0) :
    (forward sq cfg lw lh iw ih b).isOk = true := by
  unfold forward
  rw [if_neg]
  · rfl
  · rintro ⟨h1, h2, -⟩
    rcases hdims with hdim | hdim
    · omega
    · omega

/-- Witness for the amended C6 at grid height 0. -/
theorem c6_noDimensionCheck_witness :
    ((0 : ℤ) ≤ 0 ∨ (5 : ℤ) ≤ 0) ∧ (forward sq0 cfgA 5 0 300 300 scr0).isOk = true :=
  ⟨Or.inl (by decide), c6_noDimensionCheck sq0 cfgA 5 0 300 300 scr0 (Or.inl (by decide))⟩

/-- C6 counterexample: a zero grid width, and likewise zero image
dimensions, do not raise any error — `forward` completes, so the claimed
fatal PreconditionError does not exist in the code. -/
theorem c6_counterexample :
    (forward sq0 cfgA 0 2 300 300 scr0).isOk = true ∧
    (forward sq0 cfgMinMax 1 1 0 0 scr0).isOk = true :=
  ⟨by decide, by decide⟩

/-! ### Claim C2 -/

/-- C2: for every configuration and every grid with positive dimensions,
the coordinate values emitted by the generation loops form exactly
`grid.height * grid.width * actualPriorsPerCell` quadruples, where
`actualPriorsPerCell
  = len(minSizes) * (1 + len(maxSizes)) + (len(derived) - unityCount)`. -/
theorem c2_quadCount (sq : ℚ → ℚ) (cfg : Config) (lw lh iw ih : ℤ)
    (hlh : 0 < lh) (hlw : 0 < lw) :
    (allCoords sq cfg lw lh iw ih).length
      = lh.toNat * lw.toNat * actualPriorsPerCell cfg * 4 :=
  length_allCoords sq cfg lw lh iw ih

/-- Witness for C2: Scenario A (grid 2 × 2, 3 priors per cell). -/
theorem c2_quadCount_witness :
    ((0 : ℤ) < 2 ∧ (0 : ℤ) < 2) ∧
    (allCoords sq0 cfgA 2 2 300 300).length
      = (2 : ℤ).toNat * (2 : ℤ).toNat * actualPriorsPerCell cfgA * 4 :=
  ⟨⟨by decide, by decide⟩, c2_quadCount sq0 cfgA 2 2 300 300 (by decide) (by decide)⟩

lemma getLastD_eq_getLast (l : List ℤ) (d : ℤ) (h : l ≠ []) : l.getLastD d = l.getLast h := by
  induction l generalizing d with
  | nil => exact absurd rfl h
  | cons a t ih2 =>
    cases t with
    | nil => rfl
    | cons e u =>
      rw [List.getLastD_cons, ih2 a (by simp)]
      rfl

/-! ### Claim C4 -/

/-- C4: for every cell, after the size-pair loop, the aspect-ratio loop
iterates the derived ratios in order with the size variable `m` holding
the last value assigned by the size loop — the final element of
`minSize_` — skipping every ratio within `1e-6` of `1` and otherwise
emitting exactly one prior of width `m * sqrt(ar)` and height
`m / sqrt(ar)`, centered at the cell center and normalized by the image
dimensions. -/
theorem c4_aspectUsesLastMin (sq : ℚ → ℚ) (cfg : Config) (iw ih sW sH : ℚ) (h w : ℕ)
    (hne : cfg.minSize ≠ []) :
    cellCoords sq cfg iw ih sW sH h w
      = (sizeLoop sq cfg (((w : ℚ) + 1 / 2) * sW) (((h : ℚ) + 1 / 2) * sH) iw ih).2 ++
        specAspectPriors sq (flipRatios cfg.aspectRatioIn) (cfg.minSize.getLast hne)
          (((w : ℚ) + 1 / 2) * sW) (((h : ℚ) + 1 / 2) * sH) iw ih := by
  have hfst : (sizeLoop sq cfg (((w : ℚ) + 1 / 2) * sW) (((h : ℚ) + 1 / 2) * sH) iw ih).1
      = cfg.minSize.getLast hne := by
    rw [sizeLoop_eq]
    exact getLastD_eq_getLast cfg.minSize 0 hne
  unfold cellCoords
  rw [hfst]
  simp only [ratioBlock, specAspectPriors, quad]

/-- Witness for C4 at Scenario A, cell (0, 0). -/
theorem c4_aspectUsesLastMin_witness :
    cellCoords sq0 cfgA 300 300 150 150 0 0
      = (sizeLoop sq0 cfgA ((((0 : ℕ) : ℚ) + 1 / 2) * 150) ((((0 : ℕ) : ℚ) + 1 / 2) * 150)
          300 300).2 ++
        specAspectPriors sq0 (flipRatios cfgA.aspectRatioIn) 30
          ((((0 : ℕ) : ℚ) + 1 / 2) * 150) ((((0 : ℕ) : ℚ) + 1 / 2) * 150) 300 300 := by
  have happ := c4_aspectUsesLastMin sq0 cfgA 300 300 150 150 0 0 (by decide)
  simpa using happ

/-! ### Claim C10 -/

/-- C10: when `minSize_` is empty, `forward` completes without raising
any error even when `maxSize_` is non-empty, and every aspect-ratio
prior is emitted with the size variable still holding its initial value
`0`, so each unclipped quadruple is the degenerate box
`(cx/iw, cy/ih, cx/iw, cy/ih)` at the cell center. -/
theorem c10_emptyMinSizes (sq : ℚ → ℚ) (cfg : Config) (lw lh iw ih : ℤ) (b : ℕ → ℚ)
    (iw2 ih2 sW sH : ℚ) (h w : ℕ) (hmin : cfg.minSize = []) :
    (forward sq cfg lw lh iw ih b).isOk = true ∧
    cellCoords sq cfg iw2 ih2 sW sH h w
      = (flipRatios cfg.aspectRatioIn).flatMap (fun ar =>
          if |ar - 1| < 1 / 1000000 then []
          else [(((w : ℚ) + 1 / 2) * sW) / iw2, (((h : ℚ) + 1 / 2) * sH) / ih2,
                (((w : ℚ) + 1 / 2) * sW) / iw2, (((h : ℚ) + 1 / 2) * sH) / ih2]) := by
  constructor
  · unfold forward
    rw [if_neg]
    · rfl
    · rintro ⟨-, -, hne, -⟩
      exact hne hmin
  · unfold cellCoords
    rw [sizeLoop_eq]
    simp [hmin, ratioBlock, quad]

/-- Witness for C10 with `minSize_ = []`, `maxSize_ = [60]`. -/
theorem c10_emptyMinSizes_witness :
    cfgNoMin.minSize = [] ∧
    ((forward sq0 cfgNoMin 2 2 300 300 scr0).isOk = true ∧
      cellCoords sq0 cfgNoMin 300 300 150 150 0 0
        = (flipRatios cfgNoMin.aspectRatioIn).flatMap (fun ar =>
            if |ar - 1| < 1 / 1000000 then []
            else [((((0 : ℕ) : ℚ) + 1 / 2) * 150) / 300, ((((0 : ℕ) : ℚ) + 1 / 2) * 150) / 300,
                  ((((0 : ℕ) : ℚ) + 1 / 2) * 150) / 300,
                  ((((0 : ℕ) : ℚ) + 1 / 2) * 150) / 300])) :=
  ⟨by decide, c10_emptyMinSizes sq0 cfgNoMin 2 2 300 300 scr0 300 300 150 150 0 0 (by decide)⟩

/-! ### Claim C5 -/

/-- C5: after the clipping pass — which maps each value `v` of the
coordinate block to `min(max(v, 0), 1)` independently and in place —
every value of the coordinate block lies in `[0, 1]`. -/
theorem c5_clippedRange (sq : ℚ → ℚ) (cfg : Config) (lw lh iw ih : ℤ) (b : ℕ → ℚ) (i : ℕ)
    (hi : i < (dim cfg lw lh).toNat) :
    0 ≤ clipStage sq cfg lw lh iw ih b i ∧ clipStage sq cfg lw lh iw ih b i ≤ 1 := by
  unfold clipStage
  rw [if_pos hi]
  exact ⟨clip01_nonneg _, clip01_le_one _⟩

/-- Witness for C5 at Scenario A, buffer position 0. -/
theorem c5_clippedRange_witness :
    0 < (dim cfgA 2 2).toNat ∧
    (0 ≤ clipStage sq0 cfgA 2 2 300 300 scr0 0 ∧ clipStage sq0 cfgA 2 2 300 300 scr0 0 ≤ 1) :=
  ⟨by decide, c5_clippedRange sq0 cfgA 2 2 300 300 scr0 0 (by decide)⟩

/-! ### Claim C9 -/

/-- The buffer transformation of one `forward` call is idempotent: every
position either receives a value determined by the inputs alone
(coordinate region, variance region), keeps its previous content
untouched, or is clipped — and `clip01` is idempotent.  Hence a second
run over the buffer left by a first run changes nothing. -/
lemma finalBuf_idem (sq : ℚ → ℚ) (cfg : Config) (lw lh iw ih : ℤ) (b : ℕ → ℚ) :
    finalBuf sq cfg lw lh iw ih (finalBuf sq cfg lw lh iw ih b)
      = finalBuf sq cfg lw lh iw ih b := by
  funext i
  simp only [finalBuf, clipStage, coordStage, writeSeq]
  split_ifs <;> first | rfl | exact clip01_idem _

/-- C9: generation is deterministic.  The only state shared between two
invocations with identical configuration, grid and image dimensions is
the re-used scratch buffer; re-running `forward` on the buffer state the
first call left behind yields exactly the first call's result, so the
two produced output buffers are identical element for element. -/
theorem c9_deterministicReplay (sq : ℚ → ℚ) (cfg : Config) (lw lh iw ih : ℤ) (b : ℕ → ℚ) :
    forward sq cfg lw lh iw ih (finalBuf sq cfg lw lh iw ih b)
      = forward sq cfg lw lh iw ih b := by
  unfold forward
  split_ifs
  · rfl
  · unfold outputOf
    rw [finalBuf_idem]

/-! ### Claim C3 -/

/-- C3 amended: the per-cell size-pair emission follows the spec's step 2
except that the side of every second-tier prior is the square root of
`minSizes[s] * M` TRUNCATED to an integer (the C++ stores it into the
`int` variables `boxWidth`/`boxHeight`); the emission contains
`len(minSizes) * (1 + len(maxSizes))` quadruples per cell, of which
`len(minSizes) * len(maxSizes)` are second-tier. -/
theorem c3_sizePairPriors (sq : ℚ → ℚ) (cfg : Config) (cx cy iw ih : ℚ) :
    (sizeLoop sq cfg cx cy iw ih).2
        = specSizePriorsTrunc sq cfg.minSize cfg.maxSize cx cy iw ih ∧
    ((sizeLoop sq cfg cx cy iw ih).2).length
        = cfg.minSize.length * (1 + cfg.maxSize.length) * 4 := by
  constructor
  · rw [sizeLoop_eq]
    unfold specSizePriorsTrunc minBlock maxBlock
    simp only [List.length_pos]
  · rw [length_sizeLoop]
    ring

/-- C3 counterexample: with `minSizes = [30]`, `maxSizes = [60]`, a 1 × 1
grid on a 100 × 100 image (cell center `(50, 50)`) and a square-root
function returning the non-integral `42.424` on `30 * 60 = 1800`, the
code emits `(50 - 42/2)/100 = 29/100` as the second prior's first
coordinate — the truncated root — whereas the claim's formula
`(centerX - sqrt(m*M)/2)/imageW` yields `7197/25000`. -/
theorem c3_counterexample :
    (allCoords sqX cfgMinMax 1 1 100 100).getD 4 0 = 29 / 100 ∧
    (specSizePriors sqX cfgMinMax.minSize cfgMinMax.maxSize 50 50 100 100).getD 4 0
      = 7197 / 25000 ∧
    (29 / 100 : ℚ) ≠ 7197 / 25000 := by
  refine ⟨?_, ?_, by norm_num⟩
  · norm_num [allCoords, cellCoords, sizeLoop, minBlock, maxBlock, ratioBlock, quad,
      flipRatios, cfgMinMax, sqX, cTrunc, List.range_succ]
  · norm_num [specSizePriors, quad, cfgMinMax, sqX]

/-! ### Claim C1 -/

lemma varianceBlock_length (cfg : Config) (lw lh : ℤ) :
    (varianceBlock cfg lw lh).length = lh.toNat * lw.toNat * numPriors cfg * 4 := by
  unfold varianceBlock
  rw [length_flatMap_const _ _ (lw.toNat * (numPriors cfg * 4)) (fun x _ => by
    rw [length_flatMap_const _ _ (numPriors cfg * 4) (fun y _ => by
      rw [length_flatMap_const _ _ 4 (fun z _ => by simp)]
      simp)]
    simp)]
  simp
  ring

lemma map_range4_getD (v : List ℚ) (hv : v.length = 4) :
    (List.range 4).map (fun j => v.getD j 0) = v := by
  rcases v with _ | ⟨a, v⟩
  · simp at hv
  rcases v with _ | ⟨e1, v⟩
  · simp at hv
  rcases v with _ | ⟨e2, v⟩
  · simp at hv
  rcases v with _ | ⟨e3, v⟩
  · simp at hv
  rcases v with _ | ⟨e4, v⟩
  · rfl
  · simp at hv

lemma flatMap_range_const {α : Type} (n : ℕ) (xs : List α) :
    ((List.range n).flatMap fun _ => xs) = (List.replicate n xs).flatten := by
  induction n with
  | zero => simp
  | succ k ih2 =>
    rw [List.range_succ, List.flatMap_append, ih2, List.replicate_succ' k xs,
      List.flatten_append]
    simp

lemma flatten_replicate_flatten {α : Type} (a b : ℕ) (v : List α) :
    (List.replicate a ((List.replicate b v).flatten)).flatten
      = (List.replicate (a * b) v).flatten := by
  induction a with
  | zero => simp
  | succ k ih2 =>
    rw [List.replicate_succ, List.flatten_cons, ih2, ← List.flatten_append,
      ← List.replicate_add]
    congr 2
    ring

/-- The variance stores are exactly
`grid.height * grid.width * numPriors_` verbatim copies of `variance_`
when `variance_` has the four entries the indexing assumes. -/
lemma varianceBlock_eq (cfg : Config) (lw lh : ℤ) (hv : cfg.variance.length = 4) :
    varianceBlock cfg lw lh
      = (List.replicate (lh.toNat * lw.toNat * numPriors cfg) cfg.variance).flatten := by
  unfold varianceBlock
  simp only [map_range4_getD cfg.variance hv, flatMap_range_const]
  rw [flatten_replicate_flatten, flatten_replicate_flatten]

/-- C1 amended: the buffer `forward` copies out always has length
`2 * grid.height * grid.width * numPriors_ * 4` — the NOMINAL count, not
the actual one.  Whenever the two counts coincide (`actualPriorsPerCell
= numPriors_`, which covers the common single-min-size usage), the
claimed length `2 * grid.height * grid.width * actualPriorsPerCell * 4`
holds and the second half of the buffer, partitioned into 4-tuples, is
exactly `grid.height * grid.width * actualPriorsPerCell` verbatim copies
of `variance`. -/
theorem c1_amended (sq : ℚ → ℚ) (cfg : Config) (lw lh iw ih : ℤ) (b : ℕ → ℚ)
    (hlh : 0 ≤ lh) (hlw : 0 ≤ lw) (hv : cfg.variance.length = 4)
    (han : actualPriorsPerCell cfg = numPriors cfg) :
    (outputOf sq cfg lw lh iw ih b).length
        = 2 * (lh.toNat * lw.toNat * actualPriorsPerCell cfg * 4) ∧
    (outputOf sq cfg lw lh iw ih b).drop (lh.toNat * lw.toNat * actualPriorsPerCell cfg * 4)
        = (List.replicate (lh.toNat * lw.toNat * actualPriorsPerCell cfg)
            cfg.variance).flatten := by
  obtain ⟨H, rfl⟩ := Int.eq_ofNat_of_zero_le hlh
  obtain ⟨W, rfl⟩ := Int.eq_ofNat_of_zero_le hlw
  rw [han]
  simp only [Int.toNat_natCast]
  have hdim : (dim cfg (W : ℤ) (H : ℤ) * 2).toNat = 2 * (H * W * numPriors cfg * 4) := by
    have h1 : (dim cfg (W : ℤ) (H : ℤ) * 2) = ((2 * (H * W * numPriors cfg * 4) : ℕ) : ℤ) := by
      unfold dim
      push_cast
      ring
    rw [h1, Int.toNat_natCast]
  have hco : (allCoords sq cfg (W : ℤ) (H : ℤ) iw ih).length
      = H * W * numPriors cfg * 4 := by
    rw [length_allCoords, han]
    simp only [Int.toNat_natCast]
  have hvb : (varianceBlock cfg (W : ℤ) (H : ℤ)).length = H * W * numPriors cfg * 4 := by
    rw [varianceBlock_length]
    simp only [Int.toNat_natCast]
  have hveq : varianceBlock cfg (W : ℤ) (H : ℤ)
      = (List.replicate (H * W * numPriors cfg) cfg.variance).flatten := by
    rw [varianceBlock_eq cfg _ _ hv]
    simp only [Int.toNat_natCast]
  set D := H * W * numPriors cfg * 4 with hD
  constructor
  · unfold outputOf
    rw [List.length_map, List.length_range, hdim]
  · unfold outputOf
    rw [hdim, two_mul, List.range_add, List.map_append, ← hveq]
    have hlen1 : ((List.range D).map (finalBuf sq cfg (W : ℤ) (H : ℤ) iw ih b)).length = D := by
      simp
    rw [List.drop_left' hlen1, List.map_map]
    apply List.ext_getElem
    · simp [hvb]
    · intro i h1 h2
      rw [hvb] at h2
      simp only [List.getElem_map, List.getElem_range, Function.comp_apply]
      unfold finalBuf writeSeq
      rw [hco]
      rw [if_pos ⟨by omega, by rw [hvb]; omega⟩]
      have hsub : D + i - D = i := by omega
      rw [hsub]
      exact List.getD_eq_getElem _ _ (by rw [hvb]; omega)

/-- Witness for the amended C1 at Scenario A (grid 2 × 2, three priors
per cell, actual = nominal). -/
theorem c1_amended_witness :
    ((0 : ℤ) ≤ 2 ∧ cfgA.variance.length = 4 ∧
      actualPriorsPerCell cfgA = numPriors cfgA) ∧
    ((outputOf sq0 cfgA 2 2 300 300 scr0).length
        = 2 * ((2 : ℤ).toNat * (2 : ℤ).toNat * actualPriorsPerCell cfgA * 4) ∧
      (outputOf sq0 cfgA 2 2 300 300 scr0).drop
          ((2 : ℤ).toNat * (2 : ℤ).toNat * actualPriorsPerCell cfgA * 4)
        = (List.replicate ((2 : ℤ).toNat * (2 : ℤ).toNat * actualPriorsPerCell cfgA)
            cfgA.variance).flatten) := by
  have hact : actualPriorsPerCell cfgA = numPriors cfgA := by
    norm_num [actualPriorsPerCell, numPriors, unityCount, flipRatios, cfgA,
      List.countP_cons, List.countP_nil, List.range_succ, abs_lt]
  exact ⟨⟨by norm_num, rfl, hact⟩,
    c1_amended sq0 cfgA 2 2 300 300 scr0 (by norm_num) (by norm_num) rfl hact⟩

/-- C1 counterexample: with two min sizes (`[30, 40]`), no max sizes and
no raw ratios, the actual per-cell count is 2 but `numPriors_` is 1: on
a 1 × 1 grid the buffer `forward` copies out has 8 entries, not the
claimed `2 * 1 * 1 * actualPriorsPerCell * 4 = 16`. -/
theorem c1_counterexample :
    forward sq0 cfgTwoMin 1 1 300 300 scr0
        = Except.ok (outputOf sq0 cfgTwoMin 1 1 300 300 scr0) ∧
    (outputOf sq0 cfgTwoMin 1 1 300 300 scr0).length = 8 ∧
    2 * ((1 : ℤ).toNat * (1 : ℤ).toNat * actualPriorsPerCell cfgTwoMin * 4) = 16 := by
  refine ⟨?_, ?_, ?_⟩
  · unfold forward
    rw [if_neg]
    rintro ⟨-, -, -, hmx, -⟩
    exact hmx rfl
  · unfold outputOf
    rw [List.length_map, List.length_range]
    have hd4 : dim cfgTwoMin 1 1 = 4 := by
      norm_num [dim, numPriors, flipRatios, cfgTwoMin]
    rw [hd4]
    rfl
  · norm_num [actualPriorsPerCell, unityCount, flipRatios, cfgTwoMin,
      List.countP_cons, List.countP_nil, abs_lt]

end PriorBox
